import Mathlib

/-!
Verification of the effect-env validation-and-policy pipeline.

The definitions below are a shallow embedding of the TypeScript sources:

* `src/services/prefix-enforcement/service.ts` — `resolveMeta`,
  `uniqueSorted`, `serverViolations`, `clientViolations`, `buildMessage`,
  `makePrefixEnforcement().enforce`;
* `src/services/env/service.ts` — `mergeMeta`;
* `src/env/validate.ts` — `ValidationError`, `formatValidationReport`,
  and the error-extraction loop inside `validate`.

Strings are modelled with Lean `String`; JavaScript string primitives
(`startsWith`, `trim`, `includes`, `slice`, `padEnd`) are modelled
character-wise on `String.data`.  Records (`Record<string, unknown>`)
are modelled as association lists whose first components are the keys
returned by `Object.keys`.
-/

deriving instance DecidableEq for Except

namespace EffectEnv

/-- Models JavaScript `s.startsWith(p)`: `p` is a character-wise
initial segment of `s`. -/
def strStartsWith (s p : String) : Bool :=
  p.data.isPrefixOf s.data

/-- Models JavaScript `s.includes(p)`: `p` occurs as a contiguous
substring of `s` (character-wise). -/
def charsContain (pat : List Char) : List Char → Bool
  | [] => pat.isEmpty
  | c :: rest => pat.isPrefixOf (c :: rest) || charsContain pat rest

/-- String version of `charsContain`, modelling `s.includes(p)`. -/
def strIncludes (s p : String) : Bool :=
  charsContain p.data s.data

/-- Models JavaScript `s.trim()`: strip leading and trailing whitespace. -/
def strTrim (s : String) : String :=
  String.mk (((s.data.dropWhile Char.isWhitespace).reverse.dropWhile
    Char.isWhitespace).reverse)

/-- Models JavaScript `s.slice(0, n)`: the first `n` characters of `s`. -/
def strTake (s : String) (n : Nat) : String :=
  String.mk (s.data.take n)

/-- Models JavaScript `s.padEnd(n)`: pad `s` on the right with spaces up
to length `n`; a string already at least `n` long is returned unchanged. -/
def padEnd (s : String) (n : Nat) : String :=
  s ++ String.mk (List.replicate (n - s.length) ' ')

/-- Lexicographic strict comparison of character lists by code point,
modelling the default JavaScript string comparison used by
`Array.prototype.sort()`. -/
def charsLt : List Char → List Char → Bool
  | _, [] => false
  | [], _ :: _ => true
  | a :: as, b :: bs =>
    if a.toNat < b.toNat then true
    else if b.toNat < a.toNat then false
    else charsLt as bs

/-- Strict lexicographic order on strings (JavaScript `a < b`). -/
def strLt (a b : String) : Bool :=
  charsLt a.data b.data

/-- Lexicographic `≤` on strings: `a ≤ b` iff `¬ b < a`. -/
def strLe (a b : String) : Bool :=
  !(strLt b a)

/-- Insert a string into a (sorted) list, keeping `strLe`-order. -/
def insertSorted (x : String) : List String → List String
  | [] => [x]
  | y :: ys => if strLe x y then x :: y :: ys else y :: insertSorted x ys

/-- Insertion sort on strings; models JavaScript `Array.prototype.sort()`
(default lexicographic comparison). -/
def sortStrings (l : List String) : List String :=
  l.foldr insertSorted []

/-- Helper for `dedupFirst`: drop any element already in `seen`,
mirroring repeated `Set.prototype.add`. -/
def dedupSeen (seen : List String) : List String → List String
  | [] => []
  | x :: xs =>
    if x ∈ seen then dedupSeen seen xs
    else x :: dedupSeen (seen ++ [x]) xs

/-- Models `new Set(keys)` insertion order: keep the first occurrence of
every element, dropping later duplicates. -/
def dedupFirst (l : List String) : List String :=
  dedupSeen [] l

/-- Embeds `uniqueSorted` from `prefix-enforcement/service.ts`:
`Array.from(new Set(keys)).sort()`. -/
def uniqueSorted (keys : List String) : List String :=
  sortStrings (dedupFirst keys)

/-- Embeds `EnvMeta` from `src/services/shared/types.ts`. -/
structure EnvMeta where
  serverKeys : List String
  clientKeys : List String
  clientPrefix : String
deriving DecidableEq

/-- Embeds `Partial<EnvMeta>`: every field may be absent. -/
structure PartialEnvMeta where
  serverKeys : Option (List String)
  clientKeys : Option (List String)
  clientPrefix : Option String
deriving DecidableEq

/-- Embeds `resolveMeta` from `prefix-enforcement/service.ts`:
`overrides?.field ?? meta.field`, field by field; the whole override
record may itself be absent. -/
def resolveMeta (meta : EnvMeta) (overrides : Option PartialEnvMeta) : EnvMeta :=
  { serverKeys := (overrides.bind PartialEnvMeta.serverKeys).getD meta.serverKeys
    clientKeys := (overrides.bind PartialEnvMeta.clientKeys).getD meta.clientKeys
    clientPrefix := (overrides.bind PartialEnvMeta.clientPrefix).getD meta.clientPrefix }

/-- Embeds `mergeMeta` from `src/services/env/service.ts`:
`override?.field ?? base.field`, field by field. -/
def mergeMeta (base : EnvMeta) (override : Option PartialEnvMeta) : EnvMeta :=
  { serverKeys := (override.bind PartialEnvMeta.serverKeys).getD base.serverKeys
    clientKeys := (override.bind PartialEnvMeta.clientKeys).getD base.clientKeys
    clientPrefix := (override.bind PartialEnvMeta.clientPrefix).getD base.clientPrefix }

/-- An `EnvRecord` (`Record<string, unknown>`) modelled as an association
list; the keys, in `Object.keys` order, are the first components. -/
def EnvRecord : Type := List (String × String)

instance : DecidableEq EnvRecord := by
  unfold EnvRecord
  infer_instance

/-- Models `Object.keys(env)`. -/
def envKeys (env : EnvRecord) : List String :=
  (env : List (String × String)).map Prod.fst

/-- The per-key test inside the `serverViolations` loop of
`prefix-enforcement/service.ts`: the three `if` statements each add the
key to the violation set, so a key is collected exactly when one of the
three conditions holds. -/
def serverViolation (meta : EnvMeta) (key : String) : Bool :=
  meta.clientKeys.contains key ||
  !(meta.serverKeys.contains key) ||
  (decide (0 < meta.clientPrefix.length) && strStartsWith key meta.clientPrefix)

/-- Embeds `serverViolations`: collect the keys of `env` hitting any of
the three conditions into a `Set`, then `uniqueSorted`. -/
def serverViolations (env : EnvRecord) (meta : EnvMeta) : List String :=
  uniqueSorted ((envKeys env).filter (fun key => serverViolation meta key))

/-- The per-key test inside the `clientViolations` loop of
`prefix-enforcement/service.ts`. -/
def clientViolation (meta : EnvMeta) (key : String) : Bool :=
  !(meta.clientKeys.contains key) ||
  (decide (0 < meta.clientPrefix.length) && !(strStartsWith key meta.clientPrefix))

/-- Embeds `clientViolations`. -/
def clientViolations (env : EnvRecord) (meta : EnvMeta) : List String :=
  uniqueSorted ((envKeys env).filter (fun key => clientViolation meta key))

/-- The enforcement mode tag, `"server" | "client"`. -/
inductive Mode where
  | server
  | client
deriving DecidableEq

/-- Embeds `buildMessage` from `prefix-enforcement/service.ts`. -/
def buildMessage (mode : Mode) (keys : List String) : String :=
  match mode with
  | .server => "Server mode forbids these keys: " ++ String.intercalate ", " keys
  | .client => "Client mode forbids these keys: " ++ String.intercalate ", " keys

/-- Embeds `PrefixError` from `prefix-enforcement/errors.ts`. -/
structure PrefixError where
  mode : Mode
  keys : List String
  message : String
deriving DecidableEq

/-- Embeds `ValidationResult` from `src/services/shared/types.ts`. -/
structure ValidationResult where
  server : EnvRecord
  client : EnvRecord
deriving DecidableEq

/-- Embeds `PrefixEnforcementOptions` from
`prefix-enforcement/types.ts`. -/
structure PrefixEnforcementOptions where
  isServer : Bool
  metaOverride : Option PartialEnvMeta
deriving DecidableEq

/-- Embeds `PrefixEnforcementConfig` from
`prefix-enforcement/types.ts`. -/
structure PrefixEnforcementConfig where
  meta : EnvMeta
deriving DecidableEq

/-- Embeds `makePrefixEnforcement(config).enforce` from
`prefix-enforcement/service.ts`; `Effect.fail`/`Effect.succeed` become
`Except.error`/`Except.ok`. -/
def enforce (config : PrefixEnforcementConfig) (result : ValidationResult)
    (options : PrefixEnforcementOptions) : Except PrefixError ValidationResult :=
  let meta := resolveMeta config.meta options.metaOverride
  let mode := if options.isServer then Mode.server else Mode.client
  let env := if options.isServer then result.server else result.client
  let violations :=
    if options.isServer then serverViolations env meta else clientViolations env meta
  if 0 < violations.length then
    Except.error { mode := mode, keys := violations,
                   message := buildMessage mode violations }
  else
    Except.ok result

/-- The violation list `enforce` computes for its requested mode
(named so theorems can speak about it). -/
def enforceViolations (config : PrefixEnforcementConfig) (result : ValidationResult)
    (options : PrefixEnforcementOptions) : List String :=
  let meta := resolveMeta config.meta options.metaOverride
  let env := if options.isServer then result.server else result.client
  if options.isServer then serverViolations env meta else clientViolations env meta

/-- The mode tag `enforce` reports. -/
def enforceMode (options : PrefixEnforcementOptions) : Mode :=
  if options.isServer then Mode.server else Mode.client

/-- Embeds the issue records `{ key, message }` stored in
`ValidationError.invalid`. -/
structure Issue where
  key : String
  message : String
deriving DecidableEq

/-- Embeds the `ValidationError` class of `src/env/validate.ts`. -/
structure ValidationError where
  missing : List String
  invalid : List Issue
  report : String
deriving DecidableEq

/-- Embeds `ValidationError.prototype.toString`. -/
def errorToString (e : ValidationError) : String :=
  "Environment validation failed:\n" ++ e.report

/-- One `missing` row of the report:
``${key.padEnd(10)} | missing   | required but not provided``. -/
def missingRow (key : String) : String :=
  padEnd key 10 ++ " | missing   | required but not provided"

/-- One `invalid` row of the report, with the 30-character message
truncation from `formatValidationReport`. -/
def invalidRow (issue : Issue) : String :=
  let shortMsg :=
    if 30 < issue.message.length then strTake issue.message 30 ++ "..."
    else issue.message
  padEnd issue.key 10 ++ " | invalid   | " ++ shortMsg

/-- The lines `formatValidationReport` pushes, in order: header,
separator, one row per missing key, one row per invalid issue. -/
def reportLines (e : ValidationError) : List String :=
  ["Key       | Status    | Details", "-----------|-----------|--------"]
    ++ e.missing.map missingRow ++ e.invalid.map invalidRow

/-- Embeds `formatValidationReport` from `src/env/validate.ts`:
`lines.join("\n")`. -/
def formatValidationReport (e : ValidationError) : String :=
  String.intercalate "\n" (reportLines e)

/-- Scans the characters after `["` for the capture of the regex
`\x5b"([^"]+)"\x5d`: the characters strictly before the next `"`,
together with what follows that quote; `none` when no quote follows. -/
def scanKeyContent : List Char → Option (List Char × List Char)
  | [] => none
  | c :: rest =>
    if c = '"' then some ([], rest)
    else
      match scanKeyContent rest with
      | some (content, after) => some (c :: content, after)
      | none => none

/-- Models `line.match(/\x5b"([^"]+)"\x5d/)` returning the first capture:
the leftmost occurrence of `["`, immediately followed by one or more
non-quote characters, a quote and a closing bracket.  (A failed match
attempt restarts one character later, at the quote, where no match can
begin, so restarting after the quote is equivalent.) -/
def findKeyMatch : List Char → Option String
  | [] => none
  | c :: rest =>
    if c = '[' then
      match rest with
      | '"' :: rest2 =>
        (match scanKeyContent rest2 with
         | some (content, ']' :: _) =>
           if 0 < content.length then some (String.mk content)
           else findKeyMatch rest
         | some (_, _) => findKeyMatch rest
         | none => findKeyMatch rest)
      | _ => findKeyMatch rest
    else findKeyMatch rest

/-- The mutable state of the line-scanning loop in `validate`:
`currentKey` and `errorDetails`. -/
structure ScanState where
  currentKey : Option String
  errorDetails : List String
deriving DecidableEq

/-- One iteration of the `for` loop in `validate`: a key match replaces
`currentKey` and resets `errorDetails`; otherwise a non-blank line is
trimmed and appended to `errorDetails` when a key is current. -/
def scanStep (st : ScanState) (line : String) : ScanState :=
  match findKeyMatch line.data with
  | some k => { currentKey := some k, errorDetails := [] }
  | none =>
    if st.currentKey.isSome && (strTrim line != "") then
      { st with errorDetails := st.errorDetails ++ [strTrim line] }
    else st

/-- The whole `for` loop of `validate` over the formatted error lines. -/
def scanLines (lines : List String) : ScanState :=
  lines.foldl scanStep { currentKey := none, errorDetails := [] }

/-- The `isMissing` test of `validate`:
`detailsText.includes('is missing') || detailsText.includes('is required')`. -/
def isMissingDetails (detailsText : String) : Bool :=
  strIncludes detailsText "is missing" || strIncludes detailsText "is required"

/-- The `meaningfulLine` computation of `validate`.  (`errorDetails`
entries are trimmed non-blank lines, so the JavaScript falsiness test on
`errorDetails[errorDetails.length - 1]` reduces to the list being
empty.) -/
def meaningfulLine (errorDetails : List String) : String :=
  match errorDetails.find? (fun d =>
      strIncludes d "Expected" || strIncludes d "actual" ||
      strIncludes d "failure") with
  | some d => d
  | none =>
    match errorDetails.getLast? with
    | some d => d
    | none => "validation failed"

/-- The categorisation `validate` performs after the loop: only the
final `currentKey` (if any) is classified, as missing when
`isMissingDetails` holds of the joined details and as invalid otherwise. -/
def categorize (st : ScanState) : List String × List Issue :=
  match st.currentKey with
  | none => ([], [])
  | some k =>
    if isMissingDetails (String.intercalate " " st.errorDetails) then
      ([k], [])
    else
      ([], [{ key := k, message := meaningfulLine st.errorDetails }])

/-- The complete extraction `validate` applies to the formatted error
lines: run the loop, then categorise the final state. -/
def extractIssues (errorLines : List String) : List String × List Issue :=
  categorize (scanLines errorLines)

/-- Models `errors.split('\n')` on the character list. -/
def splitOnNl : List Char → List (List Char)
  | [] => [[]]
  | c :: rest =>
    if c = '\n' then [] :: splitOnNl rest
    else
      match splitOnNl rest with
      | [] => [[c]]
      | l :: ls => (c :: l) :: ls

/-- Models `errors.split('\n')`. -/
def splitLines (s : String) : List String :=
  (splitOnNl s.data).map String.mk

/-- Embeds the `ValidationError` construction in the `catchAll` branch
of `validate`: extract `missing`/`invalid` from the formatted error
text, render the report from them, and package all three. -/
def validateError (errors : String) : ValidationError :=
  let extracted := extractIssues (splitLines errors)
  { missing := extracted.1
    invalid := extracted.2
    report := formatValidationReport
      { missing := extracted.1, invalid := extracted.2, report := errors } }

/-- Modelled from the spec: the schema decoder and its tree formatter
live in the external `effect` library, outside this repository.  Per
spec §3/§4.2, a raw input whose only defects are its missing required
keys decodes to a failure tree with one "missing-data" leaf per missing
key, and the formatter renders each leaf as a section line containing
`["KEY"]` followed by an indented detail line reading `is missing`. -/
def missingKeyLines (key : String) : List String :=
  ["└─ [\"" ++ key ++ "\"]", "   └─ is missing"]

/-- Modelled from the spec (see `missingKeyLines`): the full rendered
failure tree for a raw input missing exactly `keys` — a header line
describing the schema followed by one section per missing key. -/
def renderMissingTree (header : String) (keys : List String) : List String :=
  header :: keys.flatMap missingKeyLines

/-- The policy metadata of the spec's leak-detection example:
`{serverKeys:["A"], clientKeys:["PUBLIC_B"], clientPrefix:"PUBLIC_"}`. -/
def leakMeta : EnvMeta :=
  { serverKeys := ["A"], clientKeys := ["PUBLIC_B"], clientPrefix := "PUBLIC_" }

/-- The validation result of the leak-detection example:
`server = {A:1, PUBLIC_B:2}`, empty client subset. -/
def leakResult : ValidationResult :=
  { server := [("A", "1"), ("PUBLIC_B", "2")], client := [] }

/-- Enforcement service configured with `leakMeta`. -/
def leakCfg : PrefixEnforcementConfig :=
  { meta := leakMeta }

/-- Server-mode call options with no per-call override. -/
def leakOpts : PrefixEnforcementOptions :=
  { isServer := true, metaOverride := none }

/-- A validation result that passes server-mode enforcement under
`leakCfg`. -/
def okResult : ValidationResult :=
  { server := [("A", "1")], client := [] }

/-- An issue whose message is 40 characters long, exceeding the
30-character truncation threshold. -/
def longIssue : Issue :=
  { key := "CONFIG", message := String.mk (List.replicate 40 'x') }

/-- A validation error holding only `longIssue`. -/
def longError : ValidationError :=
  { missing := [], invalid := [longIssue], report := "" }

/-- The empty validation result. -/
def emptyResult : ValidationResult :=
  { server := [], client := [] }

/-- A validation result with an empty server subset but a contaminated
client subset. -/
def contaminatedResult : ValidationResult :=
  { server := [], client := [("X", "1")] }

/-- Enforcement configured with empty key lists and an empty prefix. -/
def emptyCfg : PrefixEnforcementConfig :=
  { meta := { serverKeys := [], clientKeys := [], clientPrefix := "" } }

/-!
## Supporting lemmas
-/

theorem charsLt_asymm : ∀ a b : List Char,
    charsLt a b = true → charsLt b a = false
  | _, [] => by intro h; simp [charsLt] at h
  | [], _ :: _ => by intro _; simp [charsLt]
  | x :: xs, y :: ys => by
    intro h
    simp only [charsLt] at h ⊢
    rcases Nat.lt_trichotomy x.toNat y.toNat with hlt | heq | hgt
    · simp [show ¬ y.toNat < x.toNat by omega,
        show x.toNat < y.toNat from hlt]
    · simp only [heq, lt_self_iff_false, if_false] at h ⊢
      exact charsLt_asymm xs ys h
    · simp [show ¬ x.toNat < y.toNat by omega,
        show y.toNat < x.toNat from hgt] at h

theorem charsLt_trans : ∀ a b c : List Char,
    charsLt a b = true → charsLt b c = true → charsLt a c = true
  | _, b, [] => by intro _ h2; simp [charsLt] at h2
  | [], [], _ :: _ => by intro h1 _; simp [charsLt] at h1
  | [], _ :: _, _ :: _ => by intro _ _; simp [charsLt]
  | _ :: _, [], _ :: _ => by intro h1 _; simp [charsLt] at h1
  | x :: xs, y :: ys, z :: zs => by
    intro h1 h2
    simp only [charsLt] at h1 h2 ⊢
    rcases Nat.lt_trichotomy x.toNat y.toNat with hxy | hxy | hxy
    · rcases Nat.lt_trichotomy y.toNat z.toNat with hyz | hyz | hyz
      · simp [show x.toNat < z.toNat by omega]
      · simp [show x.toNat < z.toNat by omega]
      · simp [show ¬ y.toNat < z.toNat by omega,
          show z.toNat < y.toNat from hyz] at h2
    · rcases Nat.lt_trichotomy y.toNat z.toNat with hyz | hyz | hyz
      · simp [show x.toNat < z.toNat by omega]
      · simp only [hxy, lt_self_iff_false, if_false] at h1
        simp only [hyz, lt_self_iff_false, if_false] at h2
        simp only [show x.toNat = z.toNat by omega, lt_self_iff_false,
          if_false]
        exact charsLt_trans xs ys zs h1 h2
      · simp [show ¬ y.toNat < z.toNat by omega,
          show z.toNat < y.toNat from hyz] at h2
    · simp [show ¬ x.toNat < y.toNat by omega,
        show y.toNat < x.toNat from hxy] at h1

theorem charsLt_connex : ∀ a b : List Char,
    charsLt a b = false → charsLt b a = false → a = b
  | [], [] => by intro _ _; rfl
  | [], _ :: _ => by intro h _; simp [charsLt] at h
  | _ :: _, [] => by intro _ h; simp [charsLt] at h
  | x :: xs, y :: ys => by
    intro h1 h2
    simp only [charsLt] at h1 h2
    rcases Nat.lt_trichotomy x.toNat y.toNat with hxy | hxy | hxy
    · simp [hxy] at h1
    · have hx : x = y := Char.ext (UInt32.ext hxy)
      subst hx
      simp only [lt_self_iff_false, if_false] at h1 h2
      exact congrArg (x :: ·) (charsLt_connex xs ys h1 h2)
    · simp [show ¬ x.toNat < y.toNat by omega,
        show y.toNat < x.toNat from hxy] at h2

theorem strLe_total {x y : String} (h : strLe x y = false) :
    strLe y x = true := by
  simp only [strLe, strLt, Bool.not_eq_false'] at h
  simp only [strLe, strLt, Bool.not_eq_true']
  exact charsLt_asymm _ _ h

theorem strLe_trans {x y z : String} (h1 : strLe x y = true)
    (h2 : strLe y z = true) : strLe x z = true := by
  simp only [strLe, strLt, Bool.not_eq_true'] at h1 h2 ⊢
  rcases hzx : charsLt z.data x.data with _ | _
  · rfl
  · rcases hyz : charsLt y.data z.data with _ | _
    · have hyzz : y.data = z.data := charsLt_connex _ _ hyz h2
      rw [← hyzz] at hzx
      rw [hzx] at h1
      exact h1
    · have : charsLt y.data x.data = true := charsLt_trans _ _ _ hyz hzx
      rw [this] at h1
      exact h1

theorem insertSorted_perm (x : String) (l : List String) :
    List.Perm (insertSorted x l) (x :: l) := by
  induction l with
  | nil => simp [insertSorted]
  | cons y ys ih =>
    rcases h : strLe x y with _ | _
    · simp only [insertSorted, h, Bool.false_eq_true, if_false]
      exact (ih.cons y).trans (List.Perm.swap x y ys)
    · simp [insertSorted, h]

theorem sortStrings_perm (l : List String) :
    List.Perm (sortStrings l) l := by
  induction l with
  | nil => simp [sortStrings]
  | cons x xs ih =>
    simp only [sortStrings, List.foldr_cons]
    exact (insertSorted_perm x (sortStrings xs)).trans (ih.cons x)

theorem mem_sortStrings {a : String} {l : List String} :
    a ∈ sortStrings l ↔ a ∈ l :=
  (sortStrings_perm l).mem_iff

theorem insertSorted_sorted (x : String) (l : List String)
    (h : l.Pairwise (fun a b => strLe a b = true)) :
    (insertSorted x l).Pairwise (fun a b => strLe a b = true) := by
  induction l with
  | nil => simp [insertSorted]
  | cons y ys ih =>
    rcases hxy : strLe x y with _ | _
    · simp only [insertSorted, hxy, Bool.false_eq_true, if_false]
      have hys := List.Pairwise.of_cons h
      refine List.Pairwise.cons ?_ (ih hys)
      intro b hb
      have hb' := (insertSorted_perm x ys).mem_iff.mp hb
      rcases List.mem_cons.mp hb' with hb' | hb'
      · exact hb' ▸ strLe_total hxy
      · exact List.rel_of_pairwise_cons h hb'
    · simp only [insertSorted, hxy, if_true]
      refine List.Pairwise.cons ?_ h
      intro b hb
      rcases List.mem_cons.mp hb with hb | hb
      · exact hb ▸ hxy
      · exact strLe_trans hxy (List.rel_of_pairwise_cons h hb)

theorem sortStrings_sorted (l : List String) :
    (sortStrings l).Pairwise (fun a b => strLe a b = true) := by
  induction l with
  | nil => simp [sortStrings]
  | cons x xs ih =>
    simp only [sortStrings, List.foldr_cons]
    exact insertSorted_sorted x (sortStrings xs) ih

theorem mem_dedupSeen {a : String} : ∀ {l seen : List String},
    a ∈ dedupSeen seen l ↔ a ∈ l ∧ a ∉ seen
  | [], seen => by simp [dedupSeen]
  | x :: xs, seen => by
    by_cases hx : x ∈ seen
    · simp only [dedupSeen, hx, if_true, mem_dedupSeen, List.mem_cons]
      constructor
      · exact fun h => ⟨Or.inr h.1, h.2⟩
      · rintro ⟨hax | hax, hs⟩
        · exact absurd (hax ▸ hx) hs
        · exact ⟨hax, hs⟩
    · simp only [dedupSeen, hx, if_false, List.mem_cons, mem_dedupSeen,
        List.mem_append, List.mem_singleton]
      constructor
      · rintro (rfl | ⟨hxs, hns⟩)
        · exact ⟨Or.inl rfl, hx⟩
        · exact ⟨Or.inr hxs, fun h => hns (Or.inl h)⟩
      · rintro ⟨rfl | hxs, hs⟩
        · exact Or.inl rfl
        · by_cases hax : a = x
          · exact Or.inl hax
          · exact Or.inr ⟨hxs, by simp [hs, hax]⟩

theorem mem_dedupFirst {a : String} {l : List String} :
    a ∈ dedupFirst l ↔ a ∈ l := by
  simp [dedupFirst, mem_dedupSeen]

theorem dedupSeen_nodup : ∀ (l seen : List String), (dedupSeen seen l).Nodup
  | [], _ => by simp [dedupSeen]
  | x :: xs, seen => by
    by_cases hx : x ∈ seen
    · simpa [dedupSeen, hx] using dedupSeen_nodup xs seen
    · simp only [dedupSeen, hx, if_false, List.nodup_cons]
      refine ⟨fun hmem => ?_, dedupSeen_nodup xs (seen ++ [x])⟩
      have := mem_dedupSeen.mp hmem
      simp at this

theorem dedupFirst_nodup (l : List String) : (dedupFirst l).Nodup :=
  dedupSeen_nodup l []

theorem mem_uniqueSorted {a : String} {l : List String} :
    a ∈ uniqueSorted l ↔ a ∈ l := by
  rw [uniqueSorted, mem_sortStrings, mem_dedupFirst]

theorem uniqueSorted_nodup (l : List String) : (uniqueSorted l).Nodup :=
  ((sortStrings_perm (dedupFirst l)).nodup_iff).mpr (dedupFirst_nodup l)

theorem uniqueSorted_sorted (l : List String) :
    (uniqueSorted l).Pairwise (fun a b => strLe a b = true) :=
  sortStrings_sorted (dedupFirst l)

theorem enforce_eq (config : PrefixEnforcementConfig) (result : ValidationResult)
    (options : PrefixEnforcementOptions) :
    enforce config result options =
      if 0 < (enforceViolations config result options).length then
        Except.error { mode := enforceMode options
                       keys := enforceViolations config result options
                       message := buildMessage (enforceMode options)
                         (enforceViolations config result options) }
      else Except.ok result := rfl

theorem string_length_pos_iff {s : String} : 0 < s.length ↔ s ≠ "" := by
  rcases s with ⟨d⟩
  cases d with
  | nil => simp [String.length]
  | cons c cs =>
    simp only [String.length, List.length_cons, Nat.succ_pos, true_iff]
    intro h
    have : (c :: cs : List Char) = [] := congrArg String.data h
    exact List.cons_ne_nil c cs this

theorem contains_iff {l : List String} {a : String} :
    l.contains a = true ↔ a ∈ l :=
  List.elem_iff

theorem contains_eq_false_iff {l : List String} {a : String} :
    l.contains a = false ↔ a ∉ l := by
  rw [← contains_iff]
  cases l.contains a <;> simp

theorem mem_serverViolations {env : EnvRecord} {meta : EnvMeta} {k : String} :
    k ∈ serverViolations env meta ↔
      k ∈ envKeys env ∧ serverViolation meta k = true := by
  simp [serverViolations, mem_uniqueSorted, List.mem_filter]

theorem mem_clientViolations {env : EnvRecord} {meta : EnvMeta} {k : String} :
    k ∈ clientViolations env meta ↔
      k ∈ envKeys env ∧ clientViolation meta k = true := by
  simp [clientViolations, mem_uniqueSorted, List.mem_filter]

theorem serverViolation_iff {meta : EnvMeta} {k : String} :
    serverViolation meta k = true ↔
      k ∈ meta.clientKeys ∨ k ∉ meta.serverKeys ∨
      (meta.clientPrefix ≠ "" ∧ strStartsWith k meta.clientPrefix = true) := by
  simp only [serverViolation, Bool.or_eq_true, Bool.and_eq_true,
    Bool.not_eq_true', decide_eq_true_eq, contains_iff,
    contains_eq_false_iff, string_length_pos_iff, or_assoc]

theorem clientViolation_iff {meta : EnvMeta} {k : String} :
    clientViolation meta k = true ↔
      k ∉ meta.clientKeys ∨
      (meta.clientPrefix ≠ "" ∧ strStartsWith k meta.clientPrefix = false) := by
  simp only [clientViolation, Bool.or_eq_true, Bool.and_eq_true,
    Bool.not_eq_true', decide_eq_true_eq, contains_iff,
    contains_eq_false_iff, string_length_pos_iff]

theorem findKeyMatch_cons_ne (c : Char) (rest : List Char) (h : c ≠ '[') :
    findKeyMatch (c :: rest) = findKeyMatch rest := by
  simp [findKeyMatch, h]

theorem scanKeyContent_append (content rest : List Char) (hq : '"' ∉ content) :
    scanKeyContent (content ++ '"' :: rest) = some (content, rest) := by
  induction content with
  | nil => simp [scanKeyContent]
  | cons c cs ih =>
    have hc : c ≠ '"' := by
      rintro rfl
      exact hq (List.mem_cons_self _ _)
    have hq' : '"' ∉ cs := fun h => hq (List.mem_cons_of_mem c h)
    simp [scanKeyContent, hc, ih hq']

theorem findKeyMatch_keyChars (key : String) (hq : '"' ∉ key.data)
    (hk : key.data ≠ []) :
    findKeyMatch ('└' :: '─' :: ' ' :: '[' :: '"' :: (key.data ++ ['"', ']']))
      = some key := by
  rw [findKeyMatch_cons_ne _ _ (by decide)]
  rw [findKeyMatch_cons_ne _ _ (by decide)]
  rw [findKeyMatch_cons_ne _ _ (by decide)]
  have hsc := scanKeyContent_append key.data [']'] hq
  have hlen : 0 < key.data.length := List.length_pos.mpr hk
  simp [findKeyMatch, hsc, hlen]
  intro h
  exact absurd (List.length_eq_zero.mp h) hk

theorem scanStep_keyLine (st : ScanState) (key : String) (hq : '"' ∉ key.data)
    (hk : key.data ≠ []) :
    scanStep st ("└─ [\"" ++ key ++ "\"]")
      = { currentKey := some key, errorDetails := [] } := by
  simp [scanStep, findKeyMatch_keyChars key hq hk]

theorem scanStep_detailLine (key : String) (ds : List String) :
    scanStep { currentKey := some key, errorDetails := ds } "   └─ is missing"
      = { currentKey := some key, errorDetails := ds ++ ["└─ is missing"] } := by
  have h1 : findKeyMatch ("   └─ is missing").data = none := by decide
  have h2 : strTrim "   └─ is missing" = "└─ is missing" := by decide
  simp [scanStep, h1, h2]

theorem foldl_missingKeyLines (st : ScanState) (key : String)
    (hq : '"' ∉ key.data) (hk : key.data ≠ []) :
    (missingKeyLines key).foldl scanStep st
      = { currentKey := some key, errorDetails := ["└─ is missing"] } := by
  simp only [missingKeyLines, List.foldl_cons, List.foldl_nil,
    scanStep_keyLine st key hq hk, scanStep_detailLine]
  rfl

/-- Helper for claim C5: whatever the final scan state, the categorised
lists are duplicate-free and no key is classified both ways. -/
theorem categorize_cases (st : ScanState) :
    (categorize st).1.Nodup ∧ ((categorize st).2.map Issue.key).Nodup ∧
    (categorize st).1.Disjoint ((categorize st).2.map Issue.key) := by
  rcases st with ⟨ck, ds⟩
  rcases ck with _ | k
  · simp [categorize, List.Disjoint]
  · by_cases hm : isMissingDetails (String.intercalate " " ds) = true
    · simp [categorize, hm, List.Disjoint]
    · simp [categorize, hm, List.Disjoint]

/-- Helper: the violation list `enforce` computes is duplicate-free. -/
theorem enforceViolations_nodup (cfg : PrefixEnforcementConfig)
    (r : ValidationResult) (opts : PrefixEnforcementOptions) :
    (enforceViolations cfg r opts).Nodup := by
  unfold enforceViolations
  cases hs : opts.isServer <;>
    simp [hs, serverViolations, clientViolations] <;>
    exact uniqueSorted_nodup _

/-- Helper: the violation list `enforce` computes is sorted. -/
theorem enforceViolations_sorted (cfg : PrefixEnforcementConfig)
    (r : ValidationResult) (opts : PrefixEnforcementOptions) :
    (enforceViolations cfg r opts).Pairwise (fun a b => strLe a b = true) := by
  unfold enforceViolations
  cases hs : opts.isServer <;>
    simp [hs, serverViolations, clientViolations] <;>
    exact uniqueSorted_sorted _

/-!
## Claims
-/

/-- C1: the claim says `validate` reports `missing` set-equal to the
full set of missing required keys.  The code does not: the extraction
loop inside `validate` classifies only the final key section of the
formatted failure tree, so a tree listing the missing keys
`keys ++ [key]` yields `missing = [key]` and `invalid = []`, however
many keys precede the last one. -/
theorem claim_C1_only_last_missing_key (header : String) (keys : List String)
    (key : String) (hq : '"' ∉ key.data) (hk : key.data ≠ []) :
    extractIssues (renderMissingTree header (keys ++ [key])) = ([key], []) := by
  unfold extractIssues scanLines renderMissingTree
  rw [List.flatMap_append]
  have hsplit : header :: (keys.flatMap missingKeyLines
        ++ [key].flatMap missingKeyLines)
      = (header :: keys.flatMap missingKeyLines)
        ++ [key].flatMap missingKeyLines := rfl
  rw [hsplit, List.foldl_append]
  have hone : [key].flatMap missingKeyLines = missingKeyLines key := by simp
  rw [hone, foldl_missingKeyLines _ key hq hk]
  have hmiss : isMissingDetails (String.intercalate " " ["└─ is missing"])
      = true := by decide
  simp [categorize, hmiss]

/-- Witness for C1: for a failure tree listing missing keys `A` and `B`,
the extraction records only `["B"]` — not a list set-equal to
`{A, B}`. -/
theorem claim_C1_only_last_missing_key_witness :
    extractIssues (renderMissingTree "{ readonly A: string; readonly B: string }"
      (["A"] ++ ["B"])) = (["B"], []) :=
  claim_C1_only_last_missing_key
    "{ readonly A: string; readonly B: string }" ["A"] "B"
    (by decide) (by decide)

/-- C2: in server mode a key of the server subset is a violation iff it
is declared as a client key, or it is not declared as a server key, or
the client prefix is non-empty and the key starts with it; and the
spec's leak-detection example fails with keys exactly `["PUBLIC_B"]`. -/
theorem claim_C2_server_mode_rule :
    (∀ (env : EnvRecord) (meta : EnvMeta) (k : String), k ∈ envKeys env →
      (k ∈ serverViolations env meta ↔
        k ∈ meta.clientKeys ∨ k ∉ meta.serverKeys ∨
        (meta.clientPrefix ≠ "" ∧ strStartsWith k meta.clientPrefix = true)))
    ∧ enforce leakCfg leakResult leakOpts
      = Except.error
          { mode := Mode.server
            keys := ["PUBLIC_B"]
            message := "Server mode forbids these keys: PUBLIC_B" } := by
  constructor
  · intro env meta k hk
    rw [mem_serverViolations, serverViolation_iff]
    simp [hk]
  · decide

/-- Witness for C2 at the leak-detection example's inputs. -/
theorem claim_C2_server_mode_rule_witness :
    "PUBLIC_B" ∈ serverViolations leakResult.server leakMeta ↔
      "PUBLIC_B" ∈ leakMeta.clientKeys ∨ "PUBLIC_B" ∉ leakMeta.serverKeys ∨
      (leakMeta.clientPrefix ≠ ""
        ∧ strStartsWith "PUBLIC_B" leakMeta.clientPrefix = true) :=
  claim_C2_server_mode_rule.1 leakResult.server leakMeta "PUBLIC_B" (by decide)

/-- C3: in client mode a key of the client subset is a violation iff it
is not declared as a client key, or the client prefix is non-empty and
the key does not start with it; an empty client prefix disables the
prefix condition in both modes. -/
theorem claim_C3_client_mode_rule :
    (∀ (env : EnvRecord) (meta : EnvMeta) (k : String), k ∈ envKeys env →
      (k ∈ clientViolations env meta ↔
        k ∉ meta.clientKeys ∨
        (meta.clientPrefix ≠ "" ∧ strStartsWith k meta.clientPrefix = false)))
    ∧ (∀ (env : EnvRecord) (meta : EnvMeta) (k : String),
        meta.clientPrefix = "" →
        ((k ∈ clientViolations env meta ↔
           k ∈ envKeys env ∧ k ∉ meta.clientKeys)
         ∧ (k ∈ serverViolations env meta ↔
             k ∈ envKeys env ∧ (k ∈ meta.clientKeys ∨ k ∉ meta.serverKeys)))) := by
  constructor
  · intro env meta k hk
    rw [mem_clientViolations, clientViolation_iff]
    simp [hk]
  · intro env meta k hp
    constructor
    · rw [mem_clientViolations, clientViolation_iff, hp]
      simp
    · rw [mem_serverViolations, serverViolation_iff, hp]
      simp

/-- Witness for C3: `PUBLIC_B` in the client subset is no violation
under `leakMeta` (declared client key with the right prefix). -/
theorem claim_C3_client_mode_rule_witness :
    "PUBLIC_B" ∈ clientViolations [("PUBLIC_B", "2")] leakMeta ↔
      "PUBLIC_B" ∉ leakMeta.clientKeys ∨
      (leakMeta.clientPrefix ≠ ""
        ∧ strStartsWith "PUBLIC_B" leakMeta.clientPrefix = false) :=
  claim_C3_client_mode_rule.1 [("PUBLIC_B", "2")] leakMeta "PUBLIC_B" (by decide)

/-- C4: `enforce` fails iff the violation list for the requested mode is
non-empty; on failure the error carries the mode, the deduplicated
lexicographically sorted keys, and the message
`"<Mode> mode forbids these keys: k1, k2, ..."`; on success it returns
its input unchanged, and the empty environment passes in both modes. -/
theorem claim_C4_enforce_outcome :
    (∀ (cfg : PrefixEnforcementConfig) (r : ValidationResult)
        (opts : PrefixEnforcementOptions),
      (enforceViolations cfg r opts = [] → enforce cfg r opts = Except.ok r)
      ∧ (enforceViolations cfg r opts ≠ [] →
          enforce cfg r opts = Except.error
            { mode := enforceMode opts
              keys := enforceViolations cfg r opts
              message := buildMessage (enforceMode opts)
                (enforceViolations cfg r opts) })
      ∧ (enforceViolations cfg r opts).Nodup
      ∧ (enforceViolations cfg r opts).Pairwise (fun a b => strLe a b = true))
    ∧ (∀ keys : List String,
        buildMessage Mode.server keys
          = "Server mode forbids these keys: " ++ String.intercalate ", " keys
        ∧ buildMessage Mode.client keys
          = "Client mode forbids these keys: " ++ String.intercalate ", " keys)
    ∧ (∀ (cfg : PrefixEnforcementConfig) (opts : PrefixEnforcementOptions),
        enforce cfg { server := [], client := [] } opts
          = Except.ok { server := [], client := [] }) := by
  refine ⟨fun cfg r opts => ⟨?_, ?_, enforceViolations_nodup cfg r opts,
      enforceViolations_sorted cfg r opts⟩, fun keys => ⟨rfl, rfl⟩, ?_⟩
  · intro h
    rw [enforce_eq, h]
    simp
  · intro h
    rw [enforce_eq, if_pos (List.length_pos.mpr h)]
  · intro cfg opts
    rw [enforce_eq]
    have h : enforceViolations cfg { server := [], client := [] } opts = [] := by
      unfold enforceViolations
      cases hs : opts.isServer <;>
        simp [hs, serverViolations, clientViolations, envKeys, uniqueSorted,
          dedupFirst, dedupSeen, sortStrings]
    rw [h]
    simp

/-- Witness for C4: the leak-detection example's non-empty violation
list makes `enforce` fail with exactly that list and message. -/
theorem claim_C4_enforce_outcome_witness :
    enforce leakCfg leakResult leakOpts
      = Except.error
          { mode := enforceMode leakOpts
            keys := enforceViolations leakCfg leakResult leakOpts
            message := buildMessage (enforceMode leakOpts)
              (enforceViolations leakCfg leakResult leakOpts) } :=
  (claim_C4_enforce_outcome.1 leakCfg leakResult leakOpts).2.1 (by decide)

/-- C5: in every `ValidationError` the reporter produces, no key is
classified both missing and invalid, and neither list holds
duplicates. -/
theorem claim_C5_no_double_classification (errors : String) :
    (validateError errors).missing.Nodup
    ∧ ((validateError errors).invalid.map Issue.key).Nodup
    ∧ (validateError errors).missing.Disjoint
        ((validateError errors).invalid.map Issue.key) :=
  categorize_cases (scanLines (splitLines errors))

/-- Witness for C5 at a concrete formatted error text. -/
theorem claim_C5_no_double_classification_witness :
    (validateError "header\n└─ [\"A\"]\n   └─ is missing").missing.Nodup
    ∧ ((validateError "header\n└─ [\"A\"]\n   └─ is missing").invalid.map
        Issue.key).Nodup
    ∧ (validateError "header\n└─ [\"A\"]\n   └─ is missing").missing.Disjoint
        ((validateError "header\n└─ [\"A\"]\n   └─ is missing").invalid.map
          Issue.key) :=
  claim_C5_no_double_classification "header\n└─ [\"A\"]\n   └─ is missing"

/-- C6: the effective meta is a field-by-field merge of the override
onto the base (`resolveMeta` in the enforcement service and `mergeMeta`
in the orchestrator): a present override field wins, an absent one falls
through, and an override supplying only `clientPrefix` leaves
`serverKeys`/`clientKeys` at the base values. -/
theorem claim_C6_meta_merge :
    (∀ (base : EnvMeta) (o : PartialEnvMeta),
      resolveMeta base (some o)
        = { serverKeys := o.serverKeys.getD base.serverKeys
            clientKeys := o.clientKeys.getD base.clientKeys
            clientPrefix := o.clientPrefix.getD base.clientPrefix }
      ∧ mergeMeta base (some o)
        = { serverKeys := o.serverKeys.getD base.serverKeys
            clientKeys := o.clientKeys.getD base.clientKeys
            clientPrefix := o.clientPrefix.getD base.clientPrefix })
    ∧ (∀ base : EnvMeta, resolveMeta base none = base ∧ mergeMeta base none = base)
    ∧ (∀ (base : EnvMeta) (p : String),
        resolveMeta base
            (some { serverKeys := none, clientKeys := none, clientPrefix := some p })
          = { serverKeys := base.serverKeys
              clientKeys := base.clientKeys
              clientPrefix := p }
        ∧ mergeMeta base
            (some { serverKeys := none, clientKeys := none, clientPrefix := some p })
          = { serverKeys := base.serverKeys
              clientKeys := base.clientKeys
              clientPrefix := p }) :=
  ⟨fun _ _ => ⟨rfl, rfl⟩, fun _ => ⟨rfl, rfl⟩, fun _ _ => ⟨rfl, rfl⟩⟩

/-- C7: when `enforce` succeeds its output re-enforces clean: the
success value is the input itself, and enforcing it again with the same
configuration and options succeeds with the same value. -/
theorem claim_C7_idempotent (cfg : PrefixEnforcementConfig)
    (r r' : ValidationResult) (opts : PrefixEnforcementOptions)
    (h : enforce cfg r opts = Except.ok r') :
    enforce cfg r' opts = Except.ok r' ∧ r' = r := by
  rw [enforce_eq] at h
  by_cases hv : 0 < (enforceViolations cfg r opts).length
  · rw [if_pos hv] at h
    simp at h
  · rw [if_neg hv] at h
    have hr : r = r' := by
      injection h
    subst hr
    exact ⟨by rw [enforce_eq, if_neg hv], rfl⟩

/-- Witness for C7: a clean server-mode result re-enforces to itself. -/
theorem claim_C7_idempotent_witness :
    enforce leakCfg okResult leakOpts = Except.ok okResult ∧ okResult = okResult :=
  claim_C7_idempotent leakCfg okResult okResult leakOpts (by decide)

/-- C8: any invalid-issue message longer than 30 characters is rendered
in its report row as its first 30 characters followed by `"..."`, while
the `ValidationError` stores the extracted issues with their full
messages. -/
theorem claim_C8_truncation :
    (∀ (e : ValidationError) (i : Issue), i ∈ e.invalid →
      30 < i.message.length →
      invalidRow i
        = padEnd i.key 10 ++ " | invalid   | " ++ strTake i.message 30 ++ "..."
      ∧ invalidRow i ∈ reportLines e)
    ∧ (∀ errors : String,
        (validateError errors).invalid = (extractIssues (splitLines errors)).2) := by
  constructor
  · intro e i hi hlen
    constructor
    · simp [invalidRow, hlen, String.append_assoc]
    · unfold reportLines
      refine List.mem_append.mpr (Or.inr ?_)
      exact List.mem_map_of_mem invalidRow hi
  · intro errors
    rfl

/-- Witness for C8 at a 40-character message. -/
theorem claim_C8_truncation_witness :
    invalidRow longIssue
      = padEnd longIssue.key 10 ++ " | invalid   | "
        ++ strTake longIssue.message 30 ++ "..."
    ∧ invalidRow longIssue ∈ reportLines longError :=
  claim_C8_truncation.1 longError longIssue (by decide) (by decide)

/-- C9 counterexample: the claim says the key column is rendered at
exactly 10 characters, truncating longer keys.  The code uses
`key.padEnd(10)`, which never truncates: the 12-character key
`DATABASE_URL` is rendered in full and its column is 12 characters
wide. -/
theorem claim_C9_counterexample :
    missingRow "DATABASE_URL"
      = "DATABASE_URL | missing   | required but not provided"
    ∧ (padEnd "DATABASE_URL" 10).length = 12 := by
  decide

/-- C9 as amended: keys of at most 10 characters are right-padded to a
column of exactly 10 characters; longer keys are rendered at their full
length, untruncated; the row is the padded key followed by the fixed
status and details text (the `missing`/`invalid` arrays themselves are
inputs of this pure rendering and are not altered). -/
theorem claim_C9_amended_padding (k : String) :
    (k.length ≤ 10 → (padEnd k 10).length = 10)
    ∧ (10 ≤ k.length → padEnd k 10 = k)
    ∧ missingRow k = padEnd k 10 ++ " | missing   | required but not provided" := by
  refine ⟨?_, ?_, rfl⟩
  · intro h
    have hdata : (padEnd k 10).length
        = (k.data ++ List.replicate (10 - k.length) ' ').length := rfl
    rw [hdata]
    simp only [List.length_append, List.length_replicate]
    have hk : k.data.length = k.length := rfl
    omega
  · intro h
    have h0 : 10 - k.length = 0 := Nat.sub_eq_zero_of_le h
    apply String.ext
    show k.data ++ List.replicate (10 - k.length) ' ' = k.data
    rw [h0]
    simp

/-- Witness for C9: a short key pads to 10, a long key stays intact. -/
theorem claim_C9_amended_padding_witness :
    (padEnd "PORT" 10).length = 10
    ∧ padEnd "DATABASE_URL" 10 = "DATABASE_URL" :=
  ⟨(claim_C9_amended_padding "PORT").1 (by decide),
   (claim_C9_amended_padding "DATABASE_URL").2.1 (by decide)⟩

/-- C10 counterexample: the claim says two results with equal server
subsets produce identical server-mode outcomes.  They do not: on
success `enforce` passes its input through, so results differing only
in the client subset produce different (successful) outcomes. -/
theorem claim_C10_counterexample :
    emptyResult.server = contaminatedResult.server
    ∧ enforce emptyCfg emptyResult leakOpts
      ≠ enforce emptyCfg contaminatedResult leakOpts := by
  decide

/-- C10 as amended: the violation verdict depends only on the subset
the requested mode selects — two results with equal selected subsets
get equal violation lists, and either both fail with identical errors
or both succeed, each returning its own input unchanged; contamination
in the unselected subset is never detected by a single-mode call. -/
theorem claim_C10_amended_mode_isolation (cfg : PrefixEnforcementConfig)
    (opts : PrefixEnforcementOptions) (r1 r2 : ValidationResult)
    (h : (if opts.isServer then r1.server else r1.client)
       = (if opts.isServer then r2.server else r2.client)) :
    enforceViolations cfg r1 opts = enforceViolations cfg r2 opts
    ∧ ((enforce cfg r1 opts = Except.ok r1
        ∧ enforce cfg r2 opts = Except.ok r2)
       ∨ enforce cfg r1 opts = enforce cfg r2 opts) := by
  have hv : enforceViolations cfg r1 opts = enforceViolations cfg r2 opts := by
    cases hs : opts.isServer <;>
      simp [hs] at h <;> simp [enforceViolations, hs, h]
  refine ⟨hv, ?_⟩
  by_cases h0 : 0 < (enforceViolations cfg r1 opts).length
  · right
    have h0' : 0 < (enforceViolations cfg r2 opts).length := hv ▸ h0
    rw [enforce_eq, if_pos h0, enforce_eq, if_pos h0', hv]
  · left
    have h0' : ¬ 0 < (enforceViolations cfg r2 opts).length := hv ▸ h0
    exact ⟨by rw [enforce_eq, if_neg h0], by rw [enforce_eq, if_neg h0']⟩

/-- Witness for C10 amended: equal (empty) server subsets give equal
violation lists and both calls succeed with their own inputs. -/
theorem claim_C10_amended_mode_isolation_witness :
    enforceViolations emptyCfg emptyResult leakOpts
      = enforceViolations emptyCfg contaminatedResult leakOpts
    ∧ ((enforce emptyCfg emptyResult leakOpts = Except.ok emptyResult
        ∧ enforce emptyCfg contaminatedResult leakOpts
          = Except.ok contaminatedResult)
       ∨ enforce emptyCfg emptyResult leakOpts
          = enforce emptyCfg contaminatedResult leakOpts) :=
  claim_C10_amended_mode_isolation emptyCfg leakOpts emptyResult
    contaminatedResult (by decide)

end EffectEnv
